import Mathlib

/-!
Shallow embedding of the core of the `twitch_chat_collector` repository
(token manager, IRC tag codec and line classifier, collector event
attachment, database dedup), with theorems settling the specification
claims about it.

Conventions: strings from the Python source are modelled as `List Char`;
HTTP and polling collaborators are modelled as explicit outcome values
passed to the embedded functions; the async event loop plus
`asyncio.Lock` serialization is modelled as sequential execution of the
critical sections in an arbitrary order.
-/

namespace TCC

/-! ### Token manager (`src/token_manager.py`) -/

/-- JSON body of a 200 answer from the validate endpoint.  `login` and
`expires_in` model possibly-absent keys (`none` = key missing from the
body); `scopes` is read with `.get('scopes', [])`, so its absence is
already the empty list. -/
structure ValidationData where
  login : Option String
  scopes : List String
  user_id : String
  expires_in : Option Int
deriving DecidableEq, Repr

/-- Outcome of one HTTP request: a response with a status code and parsed
body, or a `requests` network exception. -/
inductive HTTPOutcome where
  | response (status : Nat) (body : ValidationData)
  | netError (msg : String)
deriving DecidableEq, Repr

/-- `TokenManager.validate_token`: empty token short-circuits to `None`.
On a 200 response with the required `chat:read` scope, the success
debug-log f-string eagerly indexes `validation_data['login']` and
`validation_data['expires_in']`; a body missing either key raises
`KeyError`, which — like the `ValueError` raised when the scope is
missing — is caught by the function's own `except Exception` clause and
returns `None`; only then is the data returned.  401, every other
status code and every network error also return `None`. -/
def validate_token (access_token : String) (o : HTTPOutcome) :
    Option ValidationData :=
  if access_token = "" then none
  else
    match o with
    | .response status body =>
        if status = 200 then
          if "chat:read" ∈ body.scopes then
            if body.login.isSome then
              if body.expires_in.isSome then some body
              else none
            else none
          else none
        else if status = 401 then none
        else none
    | .netError _ => none

/-- New token pair in the JSON body of a 200 answer from the token
endpoint. -/
structure Tokens where
  access_token : String
  refresh_token : String
deriving DecidableEq, Repr

/-- `TokenManager.refresh_access_token`, abstracted over the already
serialized HTTP call: a 200 response yields the new token pair, every
failure raises (`ValueError`), modelled as `Except`. -/
def RefreshOutcome := Except String Tokens

/-- `TokenManager.get_valid_access_token`, with the outcomes of the two
collaborator calls passed explicitly: validate first; `None` (invalid)
refreshes immediately and returns the new access token, propagating a
refresh failure; valid with `expires_in` present and `< 600` attempts a
proactive refresh but falls back to the current token when the refresh
raises; otherwise (including an absent `expires_in`, which
`validation.get` defaults to infinity) the current token is returned. -/
def get_valid_access_token (validation : Option ValidationData)
    (refresh : Except String Tokens) (current_access_token : String) :
    Except String String :=
  match validation with
  | none => refresh.map (·.access_token)
  | some v =>
      match v.expires_in with
      | some e =>
          if e < 600 then
            match refresh with
            | .ok t => .ok t.access_token
            | .error _ => .ok current_access_token
          else .ok current_access_token
      | none => .ok current_access_token

/-! #### Refresh concurrency model (C2)

`refresh_access_token` takes the caller's refresh-token argument, then
enters `async with self._refresh_lock` and performs its own HTTP POST.
The lock serializes the critical sections, so any concurrent execution
is equivalent to running the sections one after another in some order;
no result is shared between callers.  The platform rotates the refresh
token on each successful refresh, so a POST carrying an already-rotated
token answers 400/401 and the code raises `ValueError`. -/

/-- Shared state of the refresh collaborator: how many HTTP refresh
calls were made, and the generation number of the currently valid
refresh token. -/
structure RefreshState where
  httpCalls : Nat
  currentGen : Nat
deriving DecidableEq, Repr

/-- One caller's `refresh_access_token` critical section, entered with
the refresh-token generation it captured as its argument: always one
HTTP POST; success (and token rotation) iff the presented token is the
currently valid one, otherwise the 400/401 branch raises. -/
def refreshCritical (callerTok : Nat) (s : RefreshState) :
    RefreshState × Except Unit Nat :=
  if callerTok = s.currentGen then
    (⟨s.httpCalls + 1, s.currentGen + 1⟩, .ok (s.currentGen + 1))
  else
    (⟨s.httpCalls + 1, s.currentGen⟩, .error ())

/-- Serialized execution of the critical sections of a list of
concurrent callers (each identified by the token generation it holds),
in the order the lock happened to grant them. -/
def runRefreshRound : List Nat → RefreshState →
    RefreshState × List (Except Unit Nat)
  | [], s => (s, [])
  | t :: ts, s =>
      let (s', r) := refreshCritical t s
      let (s'', rs) := runRefreshRound ts s'
      (s'', r :: rs)

/-! ### Claims C1, C2, C5 -/

/-- C1: `get_valid_access_token` validates first; an invalid token
triggers an immediate refresh whose access token is returned (errors
propagating); a valid token with remaining lifetime under 600 seconds
triggers a proactive refresh that falls back to the current token on
failure; in every other case the current token is returned unchanged. -/
theorem C1_get_valid_access_token_behavior
    (refresh : Except String Tokens) (cur : String) :
    (get_valid_access_token none refresh cur = refresh.map (·.access_token)) ∧
    (∀ v : ValidationData, ∀ e : Int, v.expires_in = some e → e < 600 →
      (∀ t, refresh = .ok t →
        get_valid_access_token (some v) refresh cur = .ok t.access_token) ∧
      (∀ msg, refresh = .error msg →
        get_valid_access_token (some v) refresh cur = .ok cur)) ∧
    (∀ v : ValidationData, ∀ e : Int, v.expires_in = some e → ¬ e < 600 →
      get_valid_access_token (some v) refresh cur = .ok cur) ∧
    (∀ v : ValidationData, v.expires_in = none →
      get_valid_access_token (some v) refresh cur = .ok cur) := by
  refine ⟨rfl, ?_, ?_, ?_⟩
  · intro v e he hlt
    refine ⟨?_, ?_⟩
    · intro t ht
      simp [get_valid_access_token, he, hlt, ht]
    · intro msg hmsg
      simp [get_valid_access_token, he, hlt, hmsg]
  · intro v e he hge
    simp [get_valid_access_token, he, hge]
  · intro v hv
    simp [get_valid_access_token, hv]

/-- Witness for C1 at concrete inputs: an invalid token returns the
refreshed access token; a near-expiry token with a failing refresh
returns the current token. -/
theorem C1_get_valid_access_token_behavior_witness :
    get_valid_access_token none (.ok ⟨"newA", "newR"⟩) "curA" = .ok "newA" ∧
    get_valid_access_token
      (some ⟨some "alice", ["chat:read"], "1", some 120⟩)
      (.error "network down") "curA" = .ok "curA" := by
  constructor
  · exact (C1_get_valid_access_token_behavior (.ok ⟨"newA", "newR"⟩) "curA").1
  · exact ((C1_get_valid_access_token_behavior (.error "network down")
        "curA").2.1 ⟨some "alice", ["chat:read"], "1", some 120⟩ 120 rfl
        (by decide)).2 "network down" rfl

/-- C2 (failing input): two concurrent callers that both hold the
current refresh token each execute their own HTTP refresh inside the
lock — two HTTP calls, not one — and the second caller's stale token is
rejected, so it raises instead of receiving the first caller's result. -/
theorem C2_refresh_not_single_flight :
    runRefreshRound [0, 0] ⟨0, 0⟩ =
      (⟨2, 1⟩, [.ok 1, .error ()]) ∧
    (runRefreshRound [0, 0] ⟨0, 0⟩).1.httpCalls ≠ 1 := by
  constructor
  · rfl
  · decide

/-- C5 (counterexample): the claim says `None` is returned exactly on a
401 answer, every other outcome being propagated as a distinct failure;
but the code answers `None` to a 500 response (and to network errors)
as well, indistinguishably from the invalid-token case. -/
theorem C5_validate_token_claim_false :
    ¬ (validate_token "tok" (.response 500 ⟨some "alice", ["chat:read"], "1", some 1000⟩)
          = none →
        (HTTPOutcome.response 500 ⟨some "alice", ["chat:read"], "1", some 1000⟩)
          = .response 401 ⟨some "alice", ["chat:read"], "1", some 1000⟩) := by
  decide

/-- C5 amended: `validate_token` returns the validation data exactly for
a non-empty token and a 200 response whose scopes include `chat:read`
and whose body carries both the `login` and `expires_in` keys (the
success debug log indexes them, and a `KeyError` on a missing key is
caught like every other exception); every other outcome — 401, any
other status, a network error, a 200 response missing the required
scope or either key, or an empty token — uniformly returns `None`. -/
theorem C5_validate_token_amended (t : String) (o : HTTPOutcome)
    (d : ValidationData) :
    (validate_token t o = some d ↔
      (t ≠ "" ∧ o = .response 200 d ∧ "chat:read" ∈ d.scopes ∧
        d.login.isSome = true ∧ d.expires_in.isSome = true)) ∧
    (validate_token t (.response 401 d) = none) ∧
    (validate_token t (.response 500 d) = none) ∧
    (validate_token t (.netError "boom") = none) ∧
    (validate_token t
        (.response 200 ⟨d.login, d.scopes, d.user_id, none⟩) = none) := by
  refine ⟨?_, ?_, ?_, ?_, ?_⟩
  · constructor
    · intro h
      by_cases ht : t = ""
      · simp [validate_token, ht] at h
      · refine ⟨ht, ?_⟩
        match o with
        | .response s body =>
            by_cases h200 : s = 200
            · subst h200
              by_cases hs : "chat:read" ∈ body.scopes
              · by_cases hl : body.login.isSome = true
                · by_cases he : body.expires_in.isSome = true
                  · simp [validate_token, ht, hs, hl, he] at h
                    subst h
                    exact ⟨rfl, hs, hl, he⟩
                  · simp [validate_token, ht, hs, hl, he] at h
                · simp [validate_token, ht, hs, hl] at h
              · simp [validate_token, ht, hs] at h
            · by_cases h401 : s = 401 <;>
                simp [validate_token, ht, h200, h401] at h
        | .netError m => simp [validate_token, ht] at h
    · rintro ⟨ht, ho, hs, hl, he⟩
      subst ho
      simp [validate_token, ht, hs, hl, he]
  · by_cases ht : t = "" <;> simp [validate_token, ht]
  · by_cases ht : t = "" <;> simp [validate_token, ht]
  · by_cases ht : t = "" <;> simp [validate_token, ht]
  · by_cases ht : t = "" <;> simp [validate_token, ht]

/-- Witness for C5 amended at concrete inputs, including the collapsed
error path: a 200 body with the scope but no `expires_in` key returns
`None`. -/
theorem C5_validate_token_amended_witness :
    validate_token "tok" (.response 200 ⟨some "alice", ["chat:read"], "1", some 1000⟩)
      = some ⟨some "alice", ["chat:read"], "1", some 1000⟩ ∧
    validate_token "tok" (.response 200 ⟨some "alice", ["chat:read"], "1", none⟩)
      = none := by
  constructor
  · exact (C5_validate_token_amended "tok"
        (.response 200 ⟨some "alice", ["chat:read"], "1", some 1000⟩)
        ⟨some "alice", ["chat:read"], "1", some 1000⟩).1.mpr
      ⟨by decide, rfl, by decide, rfl, rfl⟩
  · exact (C5_validate_token_amended "tok"
        (.response 200 ⟨some "alice", ["chat:read"], "1", none⟩)
        ⟨some "alice", ["chat:read"], "1", some 7⟩).2.2.2.2

/-! ### Tag codec (`TwitchIRCClient._parse_tags`, `src/twitch_irc.py`) -/

/-- Python `str.replace` specialized to a two-character pattern `a b` and
a one-character replacement `rep`: left-to-right, non-overlapping. -/
def replacePair (a b rep : Char) : List Char → List Char
  | [] => []
  | [x] => [x]
  | x :: y :: rest =>
      if x = a then
        if y = b then rep :: replacePair a b rep rest
        else x :: replacePair a b rep (y :: rest)
      else x :: replacePair a b rep (y :: rest)

/-- The value unescaping of `_parse_tags`:
`value.replace('\\s', ' ').replace('\\:', ';').replace('\\\\', '\\')`,
three sequential whole-string passes. -/
def unescapeValue (v : List Char) : List Char :=
  replacePair '\\' '\\' '\\'
    (replacePair '\\' ':' ';'
      (replacePair '\\' 's' ' ' v))

/-- Modelled from the spec's escape rules: a single left-to-right scan in
which `\s` becomes a space, `\:` becomes `;`, `\\` becomes a backslash,
and every other character (including a backslash that does not open one
of the three sequences) passes through unchanged. -/
def specUnescape : List Char → List Char
  | [] => []
  | [c] => [c]
  | x :: y :: rest =>
      if x = '\\' then
        if y = 's' then ' ' :: specUnescape rest
        else if y = ':' then ';' :: specUnescape rest
        else if y = '\\' then '\\' :: specUnescape rest
        else x :: specUnescape (y :: rest)
      else x :: specUnescape (y :: rest)

/-- Whether the three-character pattern `a b c` occurs as a contiguous
substring. -/
def hasSub3 (a b c : Char) : List Char → Bool
  | x :: y :: z :: rest =>
      (x = a && y = b && z = c) || hasSub3 a b c (y :: z :: rest)
  | _ => false

/-- A value is clean when it contains neither `\\s` nor `\\:` as a
substring — exactly the values on which the sequential-replacement
order cannot mis-pair an escape. -/
def cleanValue (v : List Char) : Bool :=
  !(hasSub3 '\\' '\\' 's' v) && !(hasSub3 '\\' '\\' ':' v)

theorem hasSub3_tail {a b c x : Char} {l : List Char}
    (h : hasSub3 a b c (x :: l) = false) : hasSub3 a b c l = false := by
  match l with
  | [] => rfl
  | [y] => rfl
  | y :: z :: rest =>
      simp only [hasSub3, Bool.or_eq_false_iff] at h
      exact h.2

theorem cleanValue_tail {x : Char} {l : List Char}
    (h : cleanValue (x :: l) = true) : cleanValue l = true := by
  simp only [cleanValue, Bool.and_eq_true, Bool.not_eq_true'] at h ⊢
  exact ⟨hasSub3_tail h.1, hasSub3_tail h.2⟩

theorem cleanValue_head {c : Char} {rest : List Char}
    (h : cleanValue ('\\' :: '\\' :: c :: rest) = true) :
    c ≠ 's' ∧ c ≠ ':' := by
  simp only [cleanValue, Bool.and_eq_true, Bool.not_eq_true'] at h
  constructor
  · intro hc
    subst hc
    simp [hasSub3] at h
  · intro hc
    subst hc
    simp [hasSub3] at h

theorem replacePair_cons_ne (a b rep : Char) {x : Char} (l : List Char)
    (hx : x ≠ a) : replacePair a b rep (x :: l) = x :: replacePair a b rep l := by
  cases l with
  | nil => rfl
  | cons y rest => simp [replacePair, hx]

/-- Pattern head `a` followed by a list not starting with `b`: the `a`
passes through. -/
theorem replacePair_cons_a (a b rep : Char) (l : List Char)
    (hl : l.head? ≠ some b) :
    replacePair a b rep (a :: l) = a :: replacePair a b rep l := by
  cases l with
  | nil => rfl
  | cons y rest =>
      have hy : y ≠ b := by
        intro hyy; exact hl (by rw [hyy]; rfl)
      simp [replacePair, hy]

/-- The head of a replaced list is the original head or the replacement
character. -/
theorem replacePair_head? (a b rep : Char) (l : List Char) :
    (replacePair a b rep l).head? = l.head? ∨
    (replacePair a b rep l).head? = some rep := by
  match l with
  | [] => exact Or.inl rfl
  | [x] => exact Or.inl rfl
  | x :: y :: rest =>
      by_cases hx : x = a
      · by_cases hy : y = b
        · subst hx; subst hy
          simp [replacePair]
        · subst hx
          simp [replacePair, hy]
      · simp [replacePair, hx]

theorem specUnescape_cons_ne {x : Char} (l : List Char)
    (hx : x ≠ '\\') : specUnescape (x :: l) = x :: specUnescape l := by
  cases l with
  | nil => rfl
  | cons y rest => simp [specUnescape, hx]

/-- Bounded-length version of the pass-composition/scan agreement, for
strong induction. -/
theorem unescape_eq_spec_aux (n : Nat) :
    ∀ l : List Char, l.length ≤ n → cleanValue l = true →
      unescapeValue l = specUnescape l := by
  induction n with
  | zero =>
      intro l hl _
      have : l = [] := List.length_eq_zero.mp (Nat.le_zero.mp hl)
      subst this; rfl
  | succ n ih =>
      intro l hl h
      match l with
      | [] => rfl
      | [c] => simp [unescapeValue, replacePair, specUnescape]
      | x :: y :: rest =>
          have hrest : cleanValue rest = true :=
            cleanValue_tail (cleanValue_tail h)
          have hyrest : cleanValue (y :: rest) = true := cleanValue_tail h
          have hlrest : rest.length ≤ n := by
            simp only [List.length_cons] at hl; omega
          have hlyrest : (y :: rest).length ≤ n := by
            simp only [List.length_cons] at hl ⊢; omega
          by_cases hx : x = '\\'
          · subst hx
            by_cases hys : y = 's'
            · subst hys
              show replacePair '\\' '\\' '\\' (replacePair '\\' ':' ';'
                  (replacePair '\\' 's' ' ' ('\\' :: 's' :: rest))) = _
              rw [show replacePair '\\' 's' ' ' ('\\' :: 's' :: rest)
                    = ' ' :: replacePair '\\' 's' ' ' rest from by
                  simp [replacePair]]
              rw [replacePair_cons_ne _ _ _ _ (by decide : (' ' : Char) ≠ '\\')]
              rw [replacePair_cons_ne _ _ _ _ (by decide : (' ' : Char) ≠ '\\')]
              rw [show specUnescape ('\\' :: 's' :: rest)
                    = ' ' :: specUnescape rest from by simp [specUnescape]]
              exact congrArg (' ' :: ·) (ih rest hlrest hrest)
            · by_cases hyc : y = ':'
              · subst hyc
                show replacePair '\\' '\\' '\\' (replacePair '\\' ':' ';'
                    (replacePair '\\' 's' ' ' ('\\' :: ':' :: rest))) = _
                rw [show replacePair '\\' 's' ' ' ('\\' :: ':' :: rest)
                      = '\\' :: replacePair '\\' 's' ' ' (':' :: rest) from by
                    simp [replacePair]]
                rw [replacePair_cons_ne '\\' 's' ' ' rest
                      (by decide : (':' : Char) ≠ '\\')]
                rw [show replacePair '\\' ':' ';'
                      ('\\' :: ':' :: replacePair '\\' 's' ' ' rest)
                      = ';' :: replacePair '\\' ':' ';'
                          (replacePair '\\' 's' ' ' rest) from by
                    simp [replacePair]]
                rw [replacePair_cons_ne _ _ _ _ (by decide : (';' : Char) ≠ '\\')]
                rw [show specUnescape ('\\' :: ':' :: rest)
                      = ';' :: specUnescape rest from by simp [specUnescape]]
                exact congrArg (';' :: ·) (ih rest hlrest hrest)
              · by_cases hyb : y = '\\'
                · -- double backslash: the first two passes let both
                  -- characters through, the third pairs them exactly as
                  -- the spec scan does
                  subst hyb
                  match rest with
                  | [] => decide
                  | c :: r =>
                      obtain ⟨hcs, hcc⟩ := cleanValue_head h
                      have hcr : cleanValue (c :: r) = true := hrest
                      have e1 : replacePair '\\' 's' ' '
                            ('\\' :: '\\' :: c :: r)
                          = '\\' :: '\\' :: replacePair '\\' 's' ' ' (c :: r) := by
                        rw [replacePair_cons_a '\\' 's' ' ' ('\\' :: c :: r)
                              (by simp)]
                        rw [replacePair_cons_a '\\' 's' ' ' (c :: r)
                              (by simp [hcs])]
                      have hZ : (replacePair '\\' 's' ' ' (c :: r)).head?
                          ≠ some ':' := by
                        rcases replacePair_head? '\\' 's' ' ' (c :: r) with hh | hh
                        · rw [hh]; simp [hcc]
                        · rw [hh]; simp
                      have e2 : replacePair '\\' ':' ';'
                            ('\\' :: '\\' :: replacePair '\\' 's' ' ' (c :: r))
                          = '\\' :: '\\' :: replacePair '\\' ':' ';'
                              (replacePair '\\' 's' ' ' (c :: r)) := by
                        rw [replacePair_cons_a '\\' ':' ';'
                              ('\\' :: replacePair '\\' 's' ' ' (c :: r))
                              (by simp)]
                        rw [replacePair_cons_a '\\' ':' ';'
                              (replacePair '\\' 's' ' ' (c :: r)) hZ]
                      show replacePair '\\' '\\' '\\' (replacePair '\\' ':' ';'
                          (replacePair '\\' 's' ' ' ('\\' :: '\\' :: c :: r))) = _
                      rw [e1, e2]
                      rw [show replacePair '\\' '\\' '\\'
                            ('\\' :: '\\' :: replacePair '\\' ':' ';'
                              (replacePair '\\' 's' ' ' (c :: r)))
                            = '\\' :: replacePair '\\' '\\' '\\'
                                (replacePair '\\' ':' ';'
                                  (replacePair '\\' 's' ' ' (c :: r))) from by
                          simp [replacePair]]
                      rw [show specUnescape ('\\' :: '\\' :: c :: r)
                            = '\\' :: specUnescape (c :: r) from by
                          simp [specUnescape]]
                      have hlcr : (c :: r).length ≤ n := by
                        simp only [List.length_cons] at hl ⊢; omega
                      exact congrArg ('\\' :: ·) (ih (c :: r) hlcr hcr)
                · -- backslash followed by an ordinary character: both sides
                  -- pass the two characters through unchanged
                  show replacePair '\\' '\\' '\\' (replacePair '\\' ':' ';'
                      (replacePair '\\' 's' ' ' ('\\' :: y :: rest))) = _
                  rw [show replacePair '\\' 's' ' ' ('\\' :: y :: rest)
                        = '\\' :: replacePair '\\' 's' ' ' (y :: rest) from by
                      simp [replacePair, hys]]
                  rw [replacePair_cons_ne '\\' 's' ' ' rest hyb]
                  rw [show replacePair '\\' ':' ';'
                        ('\\' :: y :: replacePair '\\' 's' ' ' rest)
                        = '\\' :: replacePair '\\' ':' ';'
                            (y :: replacePair '\\' 's' ' ' rest) from by
                      simp [replacePair, hyc]]
                  rw [replacePair_cons_ne '\\' ':' ';' _ hyb]
                  rw [show replacePair '\\' '\\' '\\'
                        ('\\' :: y :: replacePair '\\' ':' ';'
                          (replacePair '\\' 's' ' ' rest))
                        = '\\' :: replacePair '\\' '\\' '\\'
                            (y :: replacePair '\\' ':' ';'
                              (replacePair '\\' 's' ' ' rest)) from by
                      simp [replacePair, hyb]]
                  rw [replacePair_cons_ne '\\' '\\' '\\' _ hyb]
                  rw [show specUnescape ('\\' :: y :: rest)
                        = '\\' :: specUnescape (y :: rest) from by
                      simp [specUnescape, hys, hyc, hyb]]
                  rw [specUnescape_cons_ne rest hyb]
                  exact congrArg ('\\' :: y :: ·) (ih rest hlrest hrest)
          · show replacePair '\\' '\\' '\\' (replacePair '\\' ':' ';'
                (replacePair '\\' 's' ' ' (x :: y :: rest))) = _
            rw [replacePair_cons_ne '\\' 's' ' ' (y :: rest) hx]
            rw [replacePair_cons_ne '\\' ':' ';' _ hx]
            rw [replacePair_cons_ne '\\' '\\' '\\' _ hx]
            rw [specUnescape_cons_ne (y :: rest) hx]
            exact congrArg (x :: ·) (ih (y :: rest) hlyrest hyrest)

/-- On values containing neither `\\s` nor `\\:` as a substring, the
code's three sequential replacements agree with the spec's escape
scan. -/
theorem unescape_eq_spec (l : List Char) (h : cleanValue l = true) :
    unescapeValue l = specUnescape l :=
  unescape_eq_spec_aux l.length l (Nat.le_refl _) h

/-- Python `str.split(sep)` for a one-character separator: always at
least one (possibly empty) segment. -/
def splitOnChar (sep : Char) : List Char → List (List Char)
  | [] => [[]]
  | c :: rest =>
      match splitOnChar sep rest with
      | [] => [[c]]
      | g :: gs => if c = sep then [] :: g :: gs else (c :: g) :: gs

/-- Python `tag.split('=', 1)` guarded by `'=' in tag`: `none` when the
tag contains no `=`, otherwise the parts before and after the first `=`. -/
def splitOnceEq : List Char → Option (List Char × List Char)
  | [] => none
  | c :: rest =>
      if c = '=' then some ([], rest)
      else (splitOnceEq rest).map (fun p => (c :: p.1, p.2))

/-- Python dict assignment `tags[key] = value`: replace the existing
binding in place, or append a new one. -/
def setTag : List (List Char × List Char) → List Char → List Char →
    List (List Char × List Char)
  | [], k, v => [(k, v)]
  | (k', v') :: rest, k, v =>
      if k' = k then (k, v) :: rest else (k', v') :: setTag rest k v

/-- Python `tags.get(key)`. -/
def lookupTag (m : List (List Char × List Char)) (k : List Char) :
    Option (List Char) :=
  (m.find? (fun p => p.1 = k)).map (·.2)

/-- The raw `key=value` pairs of a message, before any unescaping:
`tag_pattern = re.compile(r'@([^ ]+) ')` anchored at the start of the
line (`.match`), so the message must begin with `@`, the captured tag
string is the maximal nonempty run of non-space characters after it,
and a space must follow; then the tag string is split on `;` and only
segments containing `=` contribute a pair. -/
def parseTagsRaw (msg : List Char) : List (List Char × List Char) :=
  match msg with
  | [] => []
  | c :: rest =>
      if c = '@' then
        let tagStr := rest.takeWhile (fun ch => ch ≠ ' ')
        if tagStr = [] then []
        else if tagStr.length = rest.length then []
        else (splitOnChar ';' tagStr).filterMap splitOnceEq
      else []

/-- `_parse_tags` with the given per-value decoder folded over the raw
pairs in order (dict insertion/overwrite semantics). -/
def parseTagsWith (decode : List Char → List Char) (msg : List Char) :
    List (List Char × List Char) :=
  (parseTagsRaw msg).foldl (fun m p => setTag m p.1 (decode p.2)) []

/-- `TwitchIRCClient._parse_tags`: the code's decoder is the three
sequential replacements of `unescapeValue`. -/
def parse_tags (msg : List Char) : List (List Char × List Char) :=
  parseTagsWith unescapeValue msg

/-- Modelled from the spec: the same tag-string parsing with the
spec's escape-scan decoder. -/
def spec_parse_tags (msg : List Char) : List (List Char × List Char) :=
  parseTagsWith specUnescape msg

theorem foldl_setTag_congr (f g : List Char → List Char)
    (P : List Char → Bool)
    (hfg : ∀ v, P v = true → f v = g v) :
    ∀ (raw : List (List Char × List Char))
      (m : List (List Char × List Char)),
      raw.all (fun p => P p.2) = true →
      raw.foldl (fun m p => setTag m p.1 (f p.2)) m
        = raw.foldl (fun m p => setTag m p.1 (g p.2)) m := by
  intro raw
  induction raw with
  | nil => intro m _; rfl
  | cons p rest ih =>
      intro m hall
      simp only [List.all_cons, Bool.and_eq_true] at hall
      simp only [List.foldl_cons]
      rw [hfg p.2 hall.1]
      exact ih _ hall.2

/-- The message used to refute C3: raw tag value `\\s` (backslash,
backslash, `s`). -/
def c3msg : List Char := ['@', 'k', '=', '\\', '\\', 's', ' ', 'X']

/-- C3 (counterexample): on the raw value `\\s` the escape rules give
backslash-`s` (the `\\` escape followed by the unescaped `s`), but the
code's sequential replacements consume the second backslash together
with the `s` first, yielding backslash-space; the decoded mappings
differ. -/
theorem C3_tag_decoding_claim_false :
    parse_tags c3msg = [(['k'], ['\\', ' '])] ∧
    spec_parse_tags c3msg = [(['k'], ['\\', 's'])] ∧
    parse_tags c3msg ≠ spec_parse_tags c3msg := by
  refine ⟨by decide, by decide, by decide⟩

/-- C3 amended: decoding applies three sequential global replacements,
`\s` to space, then `\:` to `;`, then `\\` to backslash; on every value
not containing `\\s` or `\\:` as a substring this coincides with the
claimed escape semantics (escape sequences decoded left to right,
unescaped characters passed through, absent keys absent), and whenever
every raw value of a line satisfies that condition the produced mapping
is exactly the one the claim describes; a `\\` escape immediately
followed by `s` or `:` is mis-decoded, the earlier replacement consuming
its second backslash. -/
theorem C3_tag_decoding_amended :
    (∀ v : List Char, cleanValue v = true → unescapeValue v = specUnescape v) ∧
    (∀ msg : List Char,
      (parseTagsRaw msg).all (fun p => cleanValue p.2) = true →
      parse_tags msg = spec_parse_tags msg) := by
  refine ⟨unescape_eq_spec, ?_⟩
  intro msg hall
  exact foldl_setTag_congr unescapeValue specUnescape cleanValue
    unescape_eq_spec (parseTagsRaw msg) [] hall

/-- Witness for C3 amended on a concrete line whose values exercise all
three escapes, including a plain `\\`. -/
theorem C3_tag_decoding_amended_witness :
    unescapeValue ['a', '\\', 's', 'b'] = specUnescape ['a', '\\', 's', 'b'] ∧
    parse_tags ['@', 'k', '=', 'a', '\\', 's', 'b', ';', 'm', '=', '\\', ':',
        'x', '\\', '\\', ' ', 'Y']
      = spec_parse_tags ['@', 'k', '=', 'a', '\\', 's', 'b', ';', 'm', '=',
        '\\', ':', 'x', '\\', '\\', ' ', 'Y'] := by
  constructor
  · exact C3_tag_decoding_amended.1 ['a', '\\', 's', 'b'] (by decide)
  · exact C3_tag_decoding_amended.2 _ (by decide)

/-! ### PING handling (`TwitchIRCClient._handle_message`, `src/twitch_irc.py`) -/

/-- Python `str.replace` for an arbitrary nonempty pattern,
left-to-right and non-overlapping, with explicit fuel so the definition
is structural.  (An empty pattern is never used by the code; it is
treated as matching nothing.) -/
def pyReplaceAux (pat rep : List Char) : Nat → List Char → List Char
  | _, [] => []
  | 0, l => l
  | fuel + 1, x :: xs =>
      if pat ≠ [] ∧ pat.isPrefixOf (x :: xs) then
        rep ++ pyReplaceAux pat rep fuel ((x :: xs).drop pat.length)
      else x :: pyReplaceAux pat rep fuel xs

/-- Python `str.replace`: one fuel unit per input character suffices. -/
def pyReplace (pat rep l : List Char) : List Char :=
  pyReplaceAux pat rep l.length l

/-- Whether `pat` occurs as a contiguous substring. -/
def hasSub (pat : List Char) : List Char → Bool
  | [] => pat.isEmpty
  | x :: xs => pat.isPrefixOf (x :: xs) || hasSub pat xs

/-- The PING branch of `_handle_message`: a line starting with `PING`
answers with `message.replace('PING', 'PONG')`; any other line takes the
classification path and sends no pong. -/
def handlePingLine (msg : List Char) : Option (List Char) :=
  if ("PING".toList).isPrefixOf msg then
    some (pyReplace "PING".toList "PONG".toList msg)
  else none

theorem pyReplaceAux_of_not_hasSub (pat rep : List Char) :
    ∀ (fuel : Nat) (l : List Char), hasSub pat l = false →
      pyReplaceAux pat rep fuel l = l := by
  intro fuel
  induction fuel with
  | zero =>
      intro l _
      cases l with
      | nil => rfl
      | cons x xs => rfl
  | succ fuel ih =>
      intro l h
      cases l with
      | nil => rfl
      | cons x xs =>
          simp only [hasSub, Bool.or_eq_false_iff] at h
          rw [pyReplaceAux]
          rw [if_neg (fun hc => by rw [h.1] at hc; exact Bool.noConfusion hc.2)]
          rw [ih xs h.2]

/-- C7 (counterexample): the payload of `PING :HOPPING` contains the
substring `PING`, so the global replacement corrupts it — the client
sends `PONG :HOPPONG`, not a pong carrying the identical payload
`:HOPPING`. -/
theorem C7_pong_payload_claim_false :
    handlePingLine "PING :HOPPING".toList = some "PONG :HOPPONG".toList ∧
    "PONG :HOPPONG".toList ≠ "PONG :HOPPING".toList := by
  constructor
  · decide
  · decide

/-- C7 amended: a received line starting with `PING` is answered by the
line with every occurrence of the substring `PING` replaced by `PONG`;
whenever the rest of the line does not itself contain `PING` — which
holds for every actual server keepalive, `PING :tmi.twitch.tv` — this is
exactly `PONG` followed by the unchanged payload. -/
theorem C7_pong_payload_amended (payload : List Char)
    (h : hasSub "PING".toList payload = false) :
    handlePingLine ("PING".toList ++ payload)
      = some ("PONG".toList ++ payload) := by
  have hpre : ("PING".toList).isPrefixOf ("PING".toList ++ payload) = true :=
    List.isPrefixOf_iff_prefix.mpr (List.prefix_append _ _)
  rw [handlePingLine, if_pos hpre]
  congr 1
  show pyReplaceAux "PING".toList "PONG".toList
      ('P' :: ("ING".toList ++ payload)).length
      ('P' :: ("ING".toList ++ payload)) = _
  rw [List.length_cons]
  rw [pyReplaceAux]
  rw [if_pos ⟨by decide, hpre⟩]
  congr 1
  show pyReplaceAux _ _ _ (payload.drop 0) = payload
  rw [List.drop_zero]
  exact pyReplaceAux_of_not_hasSub _ _ _ payload h

/-- Witness for C7 amended at the real keepalive payload. -/
theorem C7_pong_payload_amended_witness :
    handlePingLine ("PING".toList ++ " :tmi.twitch.tv".toList)
      = some ("PONG".toList ++ " :tmi.twitch.tv".toList) :=
  C7_pong_payload_amended " :tmi.twitch.tv".toList (by decide)

/-! ### CLEARCHAT handling (`TwitchIRCClient._handle_clearchat`,
`src/twitch_irc.py`) -/

/-- Python `str` whitespace (the characters `str.strip` removes and
`int` ignores at the ends). -/
def isPySpace (c : Char) : Bool :=
  c = ' ' || c = '\t' || c = '\n' || c = '\x0b' || c = '\x0c' || c = '\r'

/-- Python `str.strip()`. -/
def pyStrip (l : List Char) : List Char :=
  ((l.dropWhile isPySpace).reverse.dropWhile isPySpace).reverse

def digitVal (c : Char) : Nat := c.toNat - 48

/-- Digits after the first, allowing Python's single `_` separators
between digits (`prevUnderscore` tracks that the previous character was
a separator, which must be followed by a digit). -/
def parseDigitsGo (acc : Nat) (prevUnderscore : Bool) : List Char → Option Nat
  | [] => if prevUnderscore then none else some acc
  | c :: rest =>
      if c = '_' then
        if prevUnderscore then none else parseDigitsGo acc true rest
      else if c.isDigit then parseDigitsGo (acc * 10 + digitVal c) false rest
      else none

/-- A nonempty digit sequence (with optional `_` group separators). -/
def parseDigits : List Char → Option Nat
  | [] => none
  | c :: rest =>
      if c.isDigit then parseDigitsGo (digitVal c) false rest else none

/-- Python `int(str)`: surrounding whitespace stripped, one optional
sign, then a nonempty digit sequence; anything else raises, modelled as
`none`. -/
def pyInt? (s : List Char) : Option Int :=
  match pyStrip s with
  | [] => none
  | c :: rest =>
      if c = '+' then (parseDigits rest).map (Int.ofNat)
      else if c = '-' then (parseDigits rest).map (fun n => -(Int.ofNat n))
      else (parseDigits (c :: rest)).map (Int.ofNat)

/-- `TwitchIRCClient._parse_int`: falsy input (`None` or the empty
string) gives `None`, otherwise `int(value)` with `ValueError` caught as
`None`. -/
def parse_int (v : Option (List Char)) : Option Int :=
  match v with
  | none => none
  | some s => if s = [] then none else pyInt? s

/-- One attempt of the regex `CLEARCHAT #([^ ]+)(?: :(.+))?` at the
current position: the literal prefix, a nonempty greedy run of
non-space characters as the channel, and optionally ` :` followed by a
nonempty capture running to the next newline (`.` does not match
newlines); when the optional part cannot match, it matches empty. -/
def ccMatchAt (l : List Char) : Option (List Char × Option (List Char)) :=
  if ("CLEARCHAT #".toList).isPrefixOf l then
    let after := l.drop 11
    let chan := after.takeWhile (fun c => c ≠ ' ')
    if chan = [] then none
    else
      let rem := after.drop chan.length
      if (" :".toList).isPrefixOf rem then
        let cap := (rem.drop 2).takeWhile (fun c => c ≠ '\n')
        if cap = [] then some (chan, none) else some (chan, some cap)
      else some (chan, none)
  else none

/-- `re.search` for the pattern above: first position at which the whole
pattern matches. -/
def ccSearch : List Char → Option (List Char × Option (List Char))
  | [] => none
  | x :: xs =>
      match ccMatchAt (x :: xs) with
      | some r => some r
      | none => ccSearch xs

/-- The ban event `_handle_clearchat` hands to the `on_ban` callback
(the fields the claims are about). -/
structure BanEvent where
  broadcaster_user_login : List Char
  user_login : List Char
  is_permanent : Bool
deriving DecidableEq, Repr

/-- `TwitchIRCClient._handle_clearchat` with the `on_ban` callback
attached: parse the tags, search for the CLEARCHAT pattern; no match,
or a match without a target user (channel-wide clear), produces no
event; otherwise the event's `is_permanent` is the absence of a parsed
`ban-duration` value. -/
def handle_clearchat (msg : List Char) : Option BanEvent :=
  let tags := parse_tags msg
  match ccSearch msg with
  | none => none
  | some (_, none) => none
  | some (chan, some target) =>
      let ban_duration := parse_int (lookupTag tags ("ban-duration".toList))
      some { broadcaster_user_login := chan,
             user_login := pyStrip target,
             is_permanent := ban_duration.isNone }

theorem dropWhile_all_false (p : Char → Bool) :
    ∀ l : List Char, (∀ c ∈ l, p c = false) → l.dropWhile p = l := by
  intro l h
  cases l with
  | nil => rfl
  | cons x xs =>
      rw [List.dropWhile_cons, if_neg]
      rw [h x (List.mem_cons_self x xs)]
      simp

theorem pyStrip_all_nonspace (l : List Char)
    (h : ∀ c ∈ l, isPySpace c = false) : pyStrip l = l := by
  unfold pyStrip
  rw [dropWhile_all_false isPySpace l h]
  rw [dropWhile_all_false isPySpace l.reverse
      (fun c hc => h c (List.mem_reverse.mp hc))]
  exact List.reverse_reverse l

theorem parseDigitsGo_all_digits :
    ∀ (l : List Char) (acc : Nat), (∀ c ∈ l, c.isDigit = true) →
      ∃ n, parseDigitsGo acc false l = some n := by
  intro l
  induction l with
  | nil => intro acc _; exact ⟨acc, rfl⟩
  | cons c rest ih =>
      intro acc h
      have hc : c.isDigit = true := h c (List.mem_cons_self c rest)
      have hcu : c ≠ '_' := by
        intro hc'
        rw [hc'] at hc
        exact Bool.noConfusion hc
      rw [parseDigitsGo, if_neg hcu, if_pos hc]
      exact ih _ (fun d hd => h d (List.mem_cons_of_mem c hd))

theorem pyInt_all_digits (l : List Char) (hne : l ≠ [])
    (h : ∀ c ∈ l, c.isDigit = true) : ∃ n : Int, pyInt? l = some n := by
  have hns : ∀ c ∈ l, isPySpace c = false := by
    intro c hc
    have := h c hc
    revert this
    unfold Char.isDigit isPySpace
    intro hdig
    simp only [Bool.or_eq_false_iff]
    refine ⟨⟨⟨⟨⟨?_, ?_⟩, ?_⟩, ?_⟩, ?_⟩, ?_⟩ <;>
      · simp only [decide_eq_false_iff_not]
        intro hcontra
        rw [hcontra] at hdig
        simp at hdig
  rw [pyInt?]
  rw [pyStrip_all_nonspace l hns]
  match l, hne with
  | c :: rest, _ =>
      have hc : c.isDigit = true := h c (List.mem_cons_self c rest)
      have hcp : c ≠ '+' := by
        intro hc'; rw [hc'] at hc; exact Bool.noConfusion hc
      have hcm : c ≠ '-' := by
        intro hc'; rw [hc'] at hc; exact Bool.noConfusion hc
      simp only [if_neg hcp, if_neg hcm]
      rw [parseDigits, if_pos hc]
      obtain ⟨n, hn⟩ := parseDigitsGo_all_digits rest (digitVal c)
        (fun d hd => h d (List.mem_cons_of_mem c hd))
      exact ⟨Int.ofNat n, by rw [hn]; rfl⟩

/-- The message used to refute C8: a CLEARCHAT with a `ban-duration`
tag present but carrying a non-numeric value. -/
def c8msg : List Char := "@ban-duration=abc CLEARCHAT #chan :bad".toList

/-- C8 (counterexample): the `ban-duration` tag is present on the line,
yet `int('abc')` raises, `_parse_int` returns `None`, and the event is
classified as a permanent ban — the claim's "timeout exactly when the
tag is present" fails. -/
theorem C8_ban_duration_claim_false :
    handle_clearchat c8msg
      = some ⟨"chan".toList, "bad".toList, true⟩ ∧
    lookupTag (parse_tags c8msg) ("ban-duration".toList)
      = some "abc".toList ∧
    (handle_clearchat c8msg).map (·.is_permanent) ≠ some false := by
  refine ⟨by decide, by decide, by decide⟩

/-- C8 amended: a single-user moderation-clear is classified as a
permanent ban exactly when `int()` fails on the `ban-duration` tag —
that is, when the tag is absent, empty, or not an integer — and as a
timeout exactly when the tag value parses as an integer; in particular
an absent tag is always permanent and a nonempty all-digit value is
always a timeout. -/
theorem C8_ban_duration_amended (msg : List Char) (ev : BanEvent)
    (hev : handle_clearchat msg = some ev) :
    (ev.is_permanent = true ↔
      parse_int (lookupTag (parse_tags msg) ("ban-duration".toList)) = none) ∧
    (lookupTag (parse_tags msg) ("ban-duration".toList) = none →
      ev.is_permanent = true) ∧
    (∀ d : List Char,
      lookupTag (parse_tags msg) ("ban-duration".toList) = some d →
      d ≠ [] → (∀ c ∈ d, c.isDigit = true) →
      ev.is_permanent = false) := by
  have hperm : ev.is_permanent
      = (parse_int (lookupTag (parse_tags msg) ("ban-duration".toList))).isNone := by
    unfold handle_clearchat at hev
    match hcc : ccSearch msg with
    | none => rw [hcc] at hev; exact Option.noConfusion hev
    | some (chan, none) => rw [hcc] at hev; exact Option.noConfusion hev
    | some (chan, some target) =>
        rw [hcc] at hev
        have := Option.some.inj hev
        rw [← this]
  refine ⟨?_, ?_, ?_⟩
  · rw [hperm]
    cases parse_int (lookupTag (parse_tags msg) ("ban-duration".toList)) with
    | none => simp
    | some n => simp
  · intro hnone
    rw [hperm, hnone]
    rfl
  · intro d hd hne hdig
    rw [hperm, hd]
    obtain ⟨n, hn⟩ := pyInt_all_digits d hne hdig
    show (if d = [] then (none : Option Int) else pyInt? d).isNone = false
    rw [if_neg hne, hn]
    rfl

/-- Witness for C8 amended: a CLEARCHAT carrying `ban-duration=600`
classifies as a timeout, one without the tag as a permanent ban. -/
theorem C8_ban_duration_amended_witness :
    (BanEvent.mk ("chan".toList) ("bad".toList) false).is_permanent = false ∧
    (BanEvent.mk ("chan".toList) ("bad".toList) true).is_permanent = true := by
  constructor
  · exact (C8_ban_duration_amended
        ("@ban-duration=600 CLEARCHAT #chan :bad".toList)
        (BanEvent.mk ("chan".toList) ("bad".toList) false)
        (by decide)).2.2 ("600".toList) (by decide) (by decide)
      (by decide)
  · exact (C8_ban_duration_amended
        ("CLEARCHAT #chan :bad".toList)
        (BanEvent.mk ("chan".toList) ("bad".toList) true)
        (by decide)).2.1 (by decide)

/-- C10: a CLEARCHAT line that names no target user — the pattern
matches without the optional ` :target` part, a channel-wide chat clear
— produces no ban event and invokes no callback, and a line the pattern
does not match at all likewise produces nothing. -/
theorem C10_channel_wide_clear_ignored (msg : List Char) :
    (ccSearch msg = none → handle_clearchat msg = none) ∧
    (∀ chan : List Char, ccSearch msg = some (chan, none) →
      handle_clearchat msg = none) := by
  constructor
  · intro h
    unfold handle_clearchat
    rw [h]
  · intro chan h
    unfold handle_clearchat
    rw [h]

/-- Witness for C10 on a concrete channel-wide clear. -/
theorem C10_channel_wide_clear_ignored_witness :
    ccSearch (":tmi.twitch.tv CLEARCHAT #somechan".toList)
      = some ("somechan".toList, none) ∧
    handle_clearchat (":tmi.twitch.tv CLEARCHAT #somechan".toList) = none := by
  constructor
  · decide
  · exact (C10_channel_wide_clear_ignored _).2 ("somechan".toList) (by decide)

/-! ### Channel join (`TwitchIRCClient.join_channel`, `src/twitch_irc.py`) -/

/-- The client state `join_channel` touches: the joined-channel set and
the wire commands sent so far. -/
structure IRCState where
  joined_channels : List (List Char)
  sent : List (List Char)
deriving DecidableEq, Repr

/-- The normalization of `join_channel`: prepend `#` unless already
present, then lowercase. -/
def normalizeChannel (channel : List Char) : List Char :=
  let withHash := if channel.head? = some '#' then channel else '#' :: channel
  withHash.map Char.toLower

/-- `TwitchIRCClient.join_channel`: normalize; a channel already in
`joined_channels` is a no-op (no wire command); otherwise send
`JOIN <channel>` and record the channel as joined. -/
def join_channel (st : IRCState) (channel : List Char) : IRCState :=
  let ch := normalizeChannel channel
  if ch ∈ st.joined_channels then st
  else { joined_channels := st.joined_channels ++ [ch],
         sent := st.sent ++ ["JOIN ".toList ++ ch] }

/-- C9: joining is idempotent up to case/`#` normalization — joining an
already-joined channel leaves the state (joined set and sent commands)
unchanged, joining the same channel twice under any spellings that
normalize alike equals joining it once, and from a state where it was
not yet joined the double join sends exactly one JOIN command. -/
theorem C9_join_channel_idempotent (st : IRCState) (c c' : List Char)
    (h : normalizeChannel c = normalizeChannel c') :
    (normalizeChannel c ∈ st.joined_channels → join_channel st c = st) ∧
    (join_channel (join_channel st c) c' = join_channel st c) ∧
    (normalizeChannel c ∉ st.joined_channels →
      (join_channel (join_channel st c) c').sent
        = st.sent ++ ["JOIN ".toList ++ normalizeChannel c]) := by
  refine ⟨?_, ?_, ?_⟩
  · intro hmem
    unfold join_channel
    rw [if_pos hmem]
  · by_cases hmem : normalizeChannel c ∈ st.joined_channels
    · have h1 : join_channel st c = st := by
        unfold join_channel; rw [if_pos hmem]
      rw [h1]
      unfold join_channel
      rw [if_pos (h ▸ hmem)]
    · have h1 : join_channel st c
          = { joined_channels := st.joined_channels ++ [normalizeChannel c],
              sent := st.sent ++ ["JOIN ".toList ++ normalizeChannel c] } := by
        unfold join_channel; rw [if_neg hmem]
      rw [h1]
      unfold join_channel
      rw [if_pos]
      rw [← h]
      exact List.mem_append_right _ (List.mem_singleton.mpr rfl)
  · intro hmem
    have h1 : join_channel st c
        = { joined_channels := st.joined_channels ++ [normalizeChannel c],
            sent := st.sent ++ ["JOIN ".toList ++ normalizeChannel c] } := by
      unfold join_channel; rw [if_neg hmem]
    have h2 : join_channel (join_channel st c) c' = join_channel st c := by
      rw [h1]
      unfold join_channel
      rw [if_pos]
      rw [← h]
      exact List.mem_append_right _ (List.mem_singleton.mpr rfl)
    rw [h2, h1]

/-- Witness for C9: joining `Foo` then `#fOO` from a fresh client sends
exactly one `JOIN #foo`. -/
theorem C9_join_channel_idempotent_witness :
    (join_channel (join_channel ⟨[], []⟩ ("Foo".toList)) ("#fOO".toList)).sent
      = [] ++ ["JOIN ".toList ++ normalizeChannel ("Foo".toList)] :=
  (C9_join_channel_idempotent ⟨[], []⟩ ("Foo".toList) ("#fOO".toList)
    (by decide)).2.2 (by decide)

/-! ### Collector event attachment (`TwitchChatCollector`,
`src/collector.py`) -/

/-- `self.channel_streams`: `user_id -> stream_id` where the stored
value may itself be `None` (channel known but not live). -/
def ChannelStreams := List (String × Option String)

/-- `self.channel_streams.get(user_id)` followed by the code's
truthiness test: `None` both when the key is absent and when the stored
value is `None`. -/
def getStream (m : List (String × Option String)) (k : String) :
    Option String :=
  match (m.find? (fun p => p.1 = k)).map (·.2) with
  | none => none
  | some v => v

/-- `self.channel_streams[user_id] = v`. -/
def setStream : List (String × Option String) → String → Option String →
    List (String × Option String)
  | [], k, v => [(k, v)]
  | (k', v') :: rest, k, v =>
      if k' = k then (k, v) :: rest else (k', v') :: setStream rest k v

/-- `TwitchChatCollector.update_stream_status`, with the polling
collaborator (`get_streams`, collapsed to the returned stream id)
passed explicitly: a live poll result stores the stream id; no result
clears the entry only when a truthy id was stored (an absent key stays
absent). -/
def update_stream_status (poll : String → Option String)
    (m : List (String × Option String)) (uid : String) :
    List (String × Option String) :=
  match poll uid with
  | some sid => setStream m uid (some sid)
  | none => if (getStream m uid).isSome then setStream m uid none else m

/-- `TwitchChatCollector._handle_message`: if a stream id is known the
event is persisted with it; otherwise one `update_stream_status` call
is made and the event is persisted exactly when an id is then known,
dropped otherwise.  Result: (new map, attached stream id if persisted,
number of on-demand resolution attempts). -/
def handle_message (poll : String → Option String)
    (m : List (String × Option String)) (uid : String) :
    List (String × Option String) × Option String × Nat :=
  match getStream m uid with
  | some sid => (m, some sid, 0)
  | none =>
      let m' := update_stream_status poll m uid
      match getStream m' uid with
      | some sid => (m', some sid, 1)
      | none => (m', none, 1)

/-- `TwitchChatCollector._handle_delete` (and `_handle_ban`,
`_handle_unban`, which share the shape): if a stream id is known the
event is persisted with it; otherwise the event is skipped at once —
no `update_stream_status` call is made. -/
def handle_delete (_poll : String → Option String)
    (m : List (String × Option String)) (uid : String) :
    List (String × Option String) × Option String × Nat :=
  match getStream m uid with
  | some sid => (m, some sid, 0)
  | none => (m, none, 0)

/-- C4 (counterexample): a deletion event for a channel with no known
session, while the poller would resolve one — the claim requires one
synchronous resolution attempt, but the code drops the event with zero
attempts. -/
theorem C4_session_attach_claim_false :
    handle_delete (fun _ => some "S1") [] "100" = ([], none, 0) ∧
    (handle_delete (fun _ => some "S1") [] "100").2.2 ≠ 1 := by
  constructor
  · rfl
  · decide

/-- C4 amended: message events behave as claimed — a known session id
is attached directly, otherwise exactly one on-demand resolution
attempt decides between attaching the freshly resolved id and dropping
the event; deletion (and ban/unban) events however are dropped
immediately when no id is known, with no resolution attempt; for every
kind, an event is only ever persisted carrying the session id resolved
for its channel. -/
theorem C4_session_attach_amended (poll : String → Option String)
    (m : List (String × Option String)) (uid : String) :
    (∀ sid, getStream m uid = some sid →
      handle_message poll m uid = (m, some sid, 0) ∧
      handle_delete poll m uid = (m, some sid, 0)) ∧
    (getStream m uid = none →
      (handle_message poll m uid).2.2 = 1 ∧
      (handle_message poll m uid).1 = update_stream_status poll m uid ∧
      (handle_message poll m uid).2.1
        = getStream (update_stream_status poll m uid) uid ∧
      handle_delete poll m uid = (m, none, 0)) ∧
    (∀ sid, (handle_message poll m uid).2.1 = some sid →
      getStream (handle_message poll m uid).1 uid = some sid) ∧
    (∀ sid, (handle_delete poll m uid).2.1 = some sid →
      getStream (handle_delete poll m uid).1 uid = some sid) := by
  have hdel : handle_delete poll m uid = (m, getStream m uid, 0) := by
    unfold handle_delete
    cases getStream m uid <;> rfl
  have hmsg_unknown : getStream m uid = none →
      handle_message poll m uid
        = (update_stream_status poll m uid,
           getStream (update_stream_status poll m uid) uid, 1) := by
    intro hnone
    unfold handle_message
    rw [hnone]
    show (match getStream (update_stream_status poll m uid) uid with
          | some sid => (update_stream_status poll m uid, some sid, 1)
          | none => (update_stream_status poll m uid, none, 1)) = _
    cases getStream (update_stream_status poll m uid) uid <;> rfl
  refine ⟨?_, ?_, ?_, ?_⟩
  · intro sid hsid
    constructor
    · unfold handle_message; rw [hsid]
    · rw [hdel, hsid]
  · intro hnone
    rw [hmsg_unknown hnone, hdel, hnone]
    exact ⟨rfl, rfl, rfl, rfl⟩
  · intro sid hsid
    cases hm : getStream m uid with
    | some s =>
        have heq : handle_message poll m uid = (m, some s, 0) := by
          unfold handle_message; rw [hm]
        rw [heq] at hsid ⊢
        rw [← Option.some.inj hsid]
        exact hm
    | none =>
        rw [hmsg_unknown hm] at hsid ⊢
        exact hsid
  · intro sid hsid
    rw [hdel] at hsid ⊢
    exact hsid

/-- Witness for C4 amended: with session `S1` known for channel `1`,
both a message and a deletion are persisted carrying `S1` with no
resolution attempt. -/
theorem C4_session_attach_amended_witness :
    handle_message (fun _ => none) [("1", some "S1")] "1"
      = ([("1", some "S1")], some "S1", 0) ∧
    handle_delete (fun _ => none) [("1", some "S1")] "1"
      = ([("1", some "S1")], some "S1", 0) :=
  (C4_session_attach_amended (fun _ => none) [("1", some "S1")] "1").1
    "S1" (by decide)

/-! ### Persistence dedup (`DatabaseManager`, `src/database.py`) -/

/-- The columns of a chat-message row the dedup logic is about. -/
structure ChatMessage where
  id : String
  stream_id : String
  message_text : String
deriving DecidableEq, Repr

/-- `DatabaseManager.save_chat_message`: query by the protocol message
id; a hit returns the existing record and leaves the table unchanged, a
miss inserts the new row.  Result: (returned record, new table). -/
def save_chat_message (db : List ChatMessage) (msg : ChatMessage) :
    ChatMessage × List ChatMessage :=
  match db.find? (fun m => m.id = msg.id) with
  | some existing => (existing, db)
  | none => (msg, db ++ [msg])

/-- Saving a sequence of events one by one, collecting the returned
records and the final table. -/
def saveAll (db : List ChatMessage) :
    List ChatMessage → List ChatMessage × List ChatMessage
  | [] => ([], db)
  | m :: ms =>
      let r := save_chat_message db m
      let rs := saveAll r.2 ms
      (r.1 :: rs.1, rs.2)

/-- Number of persisted chat-message rows carrying the given id. -/
def countById (db : List ChatMessage) (i : String) : Nat :=
  (db.filter (fun m => m.id = i)).length

/-- The columns of a deletion row the dedup logic is about. -/
structure MessageDeletedEvent where
  message_id : String
  stream_id : String
deriving DecidableEq, Repr

/-- `DatabaseManager.save_deleted_event`: dedup by the target message
id; a hit returns the existing record, a miss inserts. -/
def save_deleted_event (db : List MessageDeletedEvent)
    (ev : MessageDeletedEvent) :
    MessageDeletedEvent × List MessageDeletedEvent :=
  match db.find? (fun e => e.message_id = ev.message_id) with
  | some existing => (existing, db)
  | none => (ev, db ++ [ev])

/-- Number of persisted deletion rows targeting the given message id. -/
def countDeleted (db : List MessageDeletedEvent) (i : String) : Nat :=
  (db.filter (fun e => e.message_id = i)).length

theorem countById_zero_find_none (db : List ChatMessage) (i : String)
    (h : countById db i = 0) : db.find? (fun m => m.id = i) = none := by
  apply List.find?_eq_none.mpr
  intro x hx
  have hfil : db.filter (fun m => m.id = i) = [] :=
    List.length_eq_zero.mp h
  have := List.filter_eq_nil_iff.mp hfil x hx
  simpa using this

/-- Once the record with the id is the only match, every further save
with that id returns it and leaves the table unchanged. -/
theorem saveAll_stable (m : ChatMessage) :
    ∀ (ms : List ChatMessage) (db : List ChatMessage),
      db.find? (fun x => x.id = m.id) = some m →
      (∀ x ∈ ms, x.id = m.id) →
      saveAll db ms = (ms.map (fun _ => m), db) := by
  intro ms
  induction ms with
  | nil => intro db _ _; rfl
  | cons x ms ih =>
      intro db hfind hall
      have hx : x.id = m.id := hall x (List.mem_cons_self x ms)
      have hsave : save_chat_message db x = (m, db) := by
        unfold save_chat_message
        simp only [hx]
        rw [hfind]
      show (let r := save_chat_message db x
            let rs := saveAll r.2 ms
            (r.1 :: rs.1, rs.2)) = _
      rw [hsave]
      show (let rs := saveAll db ms
            (m :: rs.1, rs.2)) = _
      rw [ih db hfind (fun y hy => hall y (List.mem_cons_of_mem x hy))]
      rfl

/-- C6: persisting chat events is idempotent on the dedup key — saving
a first message with a fresh id followed by any number of further
events carrying the same id leaves exactly one persisted record (the
first one), every duplicate save returning that existing record rather
than erroring; and the at-most-one-deletion-per-message-id invariant is
preserved by every deletion save. -/
theorem C6_dedup_idempotent (db : List ChatMessage) (m : ChatMessage)
    (ms : List ChatMessage) (hfresh : countById db m.id = 0)
    (hms : ∀ x ∈ ms, x.id = m.id) :
    (saveAll db (m :: ms)).2 = db ++ [m] ∧
    (saveAll db (m :: ms)).1 = m :: ms.map (fun _ => m) ∧
    countById (saveAll db (m :: ms)).2 m.id = 1 ∧
    (∀ (ddb : List MessageDeletedEvent) (ev : MessageDeletedEvent)
        (i : String),
      countDeleted ddb i ≤ 1 →
      countDeleted (save_deleted_event ddb ev).2 i ≤ 1) := by
  have hfind : db.find? (fun x => x.id = m.id) = none :=
    countById_zero_find_none db m.id hfresh
  have hsave1 : save_chat_message db m = (m, db ++ [m]) := by
    unfold save_chat_message
    rw [hfind]
  have hfind2 : (db ++ [m]).find? (fun x => x.id = m.id) = some m := by
    rw [List.find?_append, hfind]
    simp [List.find?]
  have hrun : saveAll db (m :: ms)
      = (m :: ms.map (fun _ => m), db ++ [m]) := by
    show (let r := save_chat_message db m
          let rs := saveAll r.2 ms
          (r.1 :: rs.1, rs.2)) = _
    rw [hsave1]
    show (let rs := saveAll (db ++ [m]) ms
          (m :: rs.1, rs.2)) = _
    rw [saveAll_stable m ms (db ++ [m]) hfind2 hms]
  refine ⟨by rw [hrun], by rw [hrun], ?_, ?_⟩
  · rw [hrun]
    show countById (db ++ [m]) m.id = 1
    unfold countById
    rw [List.filter_append]
    rw [List.length_append]
    unfold countById at hfresh
    rw [hfresh]
    simp [List.filter]
  · intro ddb ev i hle
    unfold save_deleted_event
    cases hf : ddb.find? (fun e => e.message_id = ev.message_id) with
    | some ex => exact hle
    | none =>
        show countDeleted (ddb ++ [ev]) i ≤ 1
        unfold countDeleted
        rw [List.filter_append, List.length_append]
        by_cases hi : ev.message_id = i
        · have hzero : (ddb.filter (fun e => e.message_id = i)).length = 0 := by
            rw [List.length_eq_zero]
            apply List.filter_eq_nil_iff.mpr
            intro x hx
            have := List.find?_eq_none.mp hf x hx
            simp only [decide_eq_true_eq] at this ⊢
            rw [← hi]
            exact this
          rw [hzero]
          simp [List.filter, hi]
        · have hone : ([ev].filter (fun e => e.message_id = i)).length = 0 := by
            simp [List.filter, hi]
          rw [hone]
          unfold countDeleted at hle
          omega

/-- Witness for C6: saving the same message three times into an empty
table keeps one record and returns the first record each time. -/
theorem C6_dedup_idempotent_witness :
    (saveAll [] [⟨"m1", "S1", "hello"⟩, ⟨"m1", "S1", "hello"⟩,
        ⟨"m1", "S1", "other"⟩]).2 = [] ++ [⟨"m1", "S1", "hello"⟩] ∧
    (saveAll [] [⟨"m1", "S1", "hello"⟩, ⟨"m1", "S1", "hello"⟩,
        ⟨"m1", "S1", "other"⟩]).1
      = ⟨"m1", "S1", "hello"⟩ ::
          List.map (fun _ => (⟨"m1", "S1", "hello"⟩ : ChatMessage))
            [(⟨"m1", "S1", "hello"⟩ : ChatMessage), ⟨"m1", "S1", "other"⟩] ∧
    countById (saveAll [] [⟨"m1", "S1", "hello"⟩, ⟨"m1", "S1", "hello"⟩,
        ⟨"m1", "S1", "other"⟩]).2 "m1" = 1 := by
  have h := C6_dedup_idempotent [] ⟨"m1", "S1", "hello"⟩
    [⟨"m1", "S1", "hello"⟩, ⟨"m1", "S1", "other"⟩] (by decide) (by decide)
  exact ⟨h.1, h.2.1, h.2.2.1⟩

end TCC
